import Mathlib

/-!
# Sub-installation reconciliation of the landscaper installation controller

A shallow embedding of `pkg/controllers/installations/subinstallations.go`.

* Objects of the API package (`ComponentInstallation`, `ComponentDefinition`, ...) are
  records holding the fields this file reads or writes.
* The actuator's collaborators (the store client, the definition registry, the scheme used by
  `SetOwnerReference`, `AddDefaultMappings`) are fields of `Actuator`; the theorems about one
  pass quantify over them. A statement about two passes needs a store that keeps what is
  written to it: it is made on the in-memory store `memClient`, for every registry and every
  range order.
* The parent installation is a pointer in Go and is mutated in place; it is threaded through
  `State` together with the store and the list of calls issued so far.
* A Go `error` result is `Option Err` (`none` is `nil`); `(value, error)` is `Except Err value`.
-/

set_option autoImplicit false

namespace Landscaper

/-! ## Errors -/

/-- Errors returned by the collaborators; `wrapped` is what `errors.Wrapf` builds. -/
inductive Err where
  | notFound (what : String)
  | other (msg : String)
  | wrapped (msg : String) (cause : Err)
deriving DecidableEq

/-- Model of `apierrors.IsNotFound`: true exactly for the store's not-found status error. -/
def IsNotFound : Err → Bool
  | .notFound _ => true
  | _ => false

/-- Model of `errors.Wrapf(err, msg)`. -/
def Wrapf (err : Err) (msg : String) : Err := .wrapped msg err

/-! ## Data model -/

structure DefinitionImportMapping where
  From : String
  To : String
deriving DecidableEq

structure DefinitionExportMapping where
  From : String
  To : String
deriving DecidableEq

structure DefinitionReference where
  Name : String
  Reference : String
  Imports : List DefinitionImportMapping
  Exports : List DefinitionExportMapping
deriving DecidableEq

structure ComponentDefinition where
  Name : String
  DefinitionReferences : List DefinitionReference
deriving DecidableEq

structure ObjectReference where
  Name : String
  Namespace : String
deriving DecidableEq

structure NamedObjectReference where
  Name : String
  Reference : ObjectReference
deriving DecidableEq

inductive ConditionStatus where
  | ConditionTrue
  | ConditionFalse
  | ConditionUnknown
deriving DecidableEq

structure Condition where
  CondType : String
  Status : ConditionStatus
  Reason : String
  Message : String
deriving DecidableEq

structure ComponentInstallationSpec where
  DefinitionRef : String
  Imports : List DefinitionImportMapping
  Exports : List DefinitionExportMapping
deriving DecidableEq

structure ComponentInstallationStatus where
  Phase : String
  Conditions : List Condition
  InstallationReferences : List NamedObjectReference
deriving DecidableEq

structure ComponentInstallation where
  Name : String
  Namespace : String
  DeletionTimestamp : Option Nat
  Labels : List (String × String)
  OwnerReferences : List ObjectReference
  Spec : ComponentInstallationSpec
  Status : ComponentInstallationStatus
deriving DecidableEq

/-- The zero value `&landscaperv1alpha1.ComponentInstallation{}`. -/
def ComponentInstallation.empty : ComponentInstallation :=
  { Name := "", Namespace := "", DeletionTimestamp := none, Labels := [], OwnerReferences := [],
    Spec := { DefinitionRef := "", Imports := [], Exports := [] },
    Status := { Phase := "", Conditions := [], InstallationReferences := [] } }

/-- Model of `ObjectReference.NamespacedName()`; the key the store is asked for. -/
def ComponentInstallation.key (i : ComponentInstallation) : ObjectReference :=
  { Name := i.Name, Namespace := i.Namespace }

/-! ## Constants of the API package -/

def ComponentPhaseProgressing : String := "Progressing"
def ComponentPhaseFailed : String := "Failed"
def EnsureSubInstallationsCondition : String := "EnsureSubInstallations"
def EncompassedByLabel : String := "landscaper.gardener.cloud/encompassed-by"

/-! ## Mapping comparator (lines 194-249) -/

/-- `hasMappingOfImports`: some entry of `mappings` has the `To` and `From` of `search`. -/
def hasMappingOfImports (search : DefinitionImportMapping) :
    List DefinitionImportMapping → Bool
  | [] => false
  | mapping :: rest =>
    if mapping.To = search.To ∧ mapping.From = search.From then true
    else hasMappingOfImports search rest

/-- `hasMappingOfExports`: some entry of `mappings` has the `To` and `From` of `search`. -/
def hasMappingOfExports (search : DefinitionExportMapping) :
    List DefinitionExportMapping → Bool
  | [] => false
  | mapping :: rest =>
    if mapping.To = search.To ∧ mapping.From = search.From then true
    else hasMappingOfExports search rest

/-- `installationNeedsUpdate`: the five tests of the source, in source order. -/
def installationNeedsUpdate (d : DefinitionReference) (inst : ComponentInstallation) : Bool :=
  if d.Reference ≠ inst.Spec.DefinitionRef then true
  else if d.Imports.any (fun mapping => !hasMappingOfImports mapping inst.Spec.Imports) then true
  else if d.Exports.any (fun mapping => !hasMappingOfExports mapping inst.Spec.Exports) then true
  else if inst.Spec.Imports.length ≠ d.Imports.length then true
  else if inst.Spec.Exports.length ≠ d.Exports.length then true
  else false

/-- `getDefinitionReference`: the first declared reference called `name`, if any. -/
def getDefinitionReference (d : ComponentDefinition) (name : String) :
    Option DefinitionReference :=
  d.DefinitionReferences.find? (fun ref => ref.Name = name)

/-! ## Collaborators, calls and state -/

/-- One call issued to a collaborator, with the answer it got. -/
inductive Call where
  | get (key : ObjectReference) (res : Except Err ComponentInstallation)
  | delete (obj : ComponentInstallation) (res : Option Err)
  | createOrUpdate (obj : ComponentInstallation) (res : Except Err ComponentInstallation)
  | statusUpdate (inst : ComponentInstallation) (res : Option Err)
  | getDefinitionByRef (ref : String) (res : Except Err ComponentDefinition)

/-- The store client `a.c`. Every call may change the store; `CreateOrUpdate` receives the
object and the mutate function and answers with the object as it is after the call. -/
structure Client (σ : Type) where
  Get : σ → ObjectReference → Except Err ComponentInstallation × σ
  Delete : σ → ComponentInstallation → Option Err × σ
  CreateOrUpdate : σ → ComponentInstallation →
    (ComponentInstallation → Except Err ComponentInstallation) →
    Except Err ComponentInstallation × σ
  StatusUpdate : σ → ComponentInstallation → Option Err × σ

/-- A Go map from declared name to child, as a list of entries with pairwise distinct keys. -/
abbrev SubInstallations := List (String × ComponentInstallation)

/-- The actuator: store client, registry, `controllerutil.SetOwnerReference` with the
actuator's scheme, `AddDefaultMappings` (defined elsewhere in the package), and the order in
which a `range` over a Go map visits the entries (left open by the language). -/
structure Actuator (σ : Type) where
  c : Client σ
  GetDefinitionByRef : σ → String → Except Err ComponentDefinition
  SetOwnerReference : ComponentInstallation → ComponentInstallation →
    Except Err ComponentInstallation
  AddDefaultMappings : ComponentInstallation → ComponentDefinition → ComponentInstallation
  mapRange : SubInstallations → SubInstallations

/-- A `range` over a map visits every entry exactly once. -/
def Actuator.RangeOK {σ : Type} (a : Actuator σ) : Prop :=
  ∀ m : SubInstallations, (a.mapRange m).Perm m

/-- The store, the calls issued so far (oldest first) and the parent object `inst`. -/
structure State (σ : Type) where
  store : σ
  calls : List Call
  inst : ComponentInstallation

/-- State at the start of a pass: nothing issued yet. -/
def State.init {σ : Type} (store : σ) (inst : ComponentInstallation) : State σ :=
  { store := store, calls := [], inst := inst }

/-- Map read `m[k]`. -/
def SubInstallations.get (m : SubInstallations) (k : String) : Option ComponentInstallation :=
  (m.find? (fun e => e.1 = k)).map (fun e => e.2)

/-- Map write `m[k] = v`. -/
def SubInstallations.set : SubInstallations → String → ComponentInstallation → SubInstallations
  | [], k, v => [(k, v)]
  | e :: rest, k, v => if e.1 = k then (k, v) :: rest else e :: SubInstallations.set rest k v

/-! ## Helpers of the package that live in other files -/

/-- Modelled from the spec: `helper.GetOrInitCondition`, which is not part of this file. It
returns the condition of the given type from the list, or a fresh one of that type. -/
def GetOrInitCondition (conditions : List Condition) (condType : String) : Condition :=
  match conditions.find? (fun c => c.CondType = condType) with
  | some c => c
  | none => { CondType := condType, Status := .ConditionUnknown, Reason := "", Message := "" }

/-- Modelled from the spec: `helper.UpdatedCondition`, which is not part of this file. It
returns the condition with status, reason code and message replaced. -/
def UpdatedCondition (cond : Condition) (status : ConditionStatus) (reason message : String) :
    Condition :=
  { cond with Status := status, Reason := reason, Message := message }

/-- Modelled from the spec: `helper.CreateOrUpdateConditions`, used by
`updateInstallationStatus`: the condition replaces the one of its type or is appended. -/
def CreateOrUpdateConditions : List Condition → Condition → List Condition
  | [], cond => [cond]
  | c :: rest, cond =>
    if c.CondType = cond.CondType then cond :: rest else c :: CreateOrUpdateConditions rest cond

/-- Modelled from the spec: `helper.NewInstallationReferenceState`, which is not part of this
file. It pairs the declared name with the reference of the child. -/
def NewInstallationReferenceState (name : String) (inst : ComponentInstallation) :
    NamedObjectReference :=
  { Name := name, Reference := inst.key }

/-- Modelled from the spec: `(*actuator).updateInstallationStatus`, which is not part of this
file. It sets the phase and the condition on the parent and writes the parent's status to the
store, returning the error of that write. -/
def updateInstallationStatus {σ : Type} (a : Actuator σ) (s : State σ) (phase : String)
    (cond : Condition) : Option Err × State σ :=
  let inst := { s.inst with Status := { s.inst.Status with
    Phase := phase, Conditions := CreateOrUpdateConditions s.inst.Status.Conditions cond } }
  let r := a.c.StatusUpdate s.store inst
  (r.1, { store := r.2, calls := s.calls ++ [Call.statusUpdate inst r.1], inst := inst })

/-! ## Child fetcher (lines 84-116) -/

/-- The loop of `getSubInstallations` over the tracked references. -/
def getSubInstallationsLoop {σ : Type} (a : Actuator σ) (cond : Condition) :
    List NamedObjectReference → SubInstallations → List NamedObjectReference → State σ →
    Except Err (SubInstallations × List NamedObjectReference) × State σ
  | [], subInstallations, updatedSubInstallationStates, s =>
    (.ok (subInstallations, updatedSubInstallationStates), s)
  | installationRef :: rest, subInstallations, updatedSubInstallationStates, s =>
    let r := a.c.Get s.store installationRef.Reference
    let s1 : State σ := { s with
      store := r.2, calls := s.calls ++ [Call.get installationRef.Reference r.1] }
    match r.1 with
    | .error err =>
      if !IsNotFound err then
        let cond := UpdatedCondition cond .ConditionFalse "InstallationNotFound"
          ("Sub Installation " ++ installationRef.Reference.Name ++ " not available")
        let u := updateInstallationStatus a s1 ComponentPhaseProgressing cond
        (.error (Wrapf err ("unable to get installation \x7b" ++ installationRef.Reference.Name
          ++ " " ++ installationRef.Reference.Namespace ++ "\x7d")), u.2)
      else
        getSubInstallationsLoop a cond rest subInstallations updatedSubInstallationStates s1
    | .ok subInst =>
      getSubInstallationsLoop a cond rest
        (subInstallations.set installationRef.Name subInst)
        (updatedSubInstallationStates ++ [installationRef]) s1

/-- `getSubInstallations`. -/
def getSubInstallations {σ : Type} (a : Actuator σ) (s : State σ) :
    Except Err SubInstallations × State σ :=
  let cond := GetOrInitCondition s.inst.Status.Conditions EnsureSubInstallationsCondition
  let r := getSubInstallationsLoop a cond s.inst.Status.InstallationReferences [] [] s
  match r.1 with
  | .error err => (.error err, r.2)
  | .ok (subInstallations, updatedSubInstallationStates) =>
    if updatedSubInstallationStates.length ≠ r.2.inst.Status.InstallationReferences.length then
      let u := a.c.StatusUpdate r.2.store r.2.inst
      let s1 : State σ := { r.2 with
        store := u.2, calls := r.2.calls ++ [Call.statusUpdate r.2.inst u.1] }
      match u.1 with
      | some err => (.error (Wrapf err "unable to update sub installation status"), s1)
      | none => (.ok subInstallations, s1)
    else (.ok subInstallations, r.2)

/-! ## Orphan pruner (lines 118-143) -/

/-- The loop of `cleanupOrphanedSubInstallations` over the entries of the map, in the order
the `range` visits them; `deleted` is the flag of the source. -/
def cleanupLoop {σ : Type} (a : Actuator σ) (d : ComponentDefinition) (cond : Condition) :
    SubInstallations → Bool → State σ → (Option Err × Bool) × State σ
  | [], deleted, s => ((none, deleted), s)
  | (defName, subInst) :: rest, deleted, s =>
    if (getDefinitionReference d defName).isSome then cleanupLoop a d cond rest deleted s
    else
      let r := a.c.Delete s.store subInst
      let s1 : State σ := { s with store := r.2, calls := s.calls ++ [Call.delete subInst r.1] }
      match r.1 with
      | some err =>
        if IsNotFound err then cleanupLoop a d cond rest deleted s1
        else
          let cond := UpdatedCondition cond .ConditionFalse "InstallationNotDeleted"
            ("Sub Installation " ++ subInst.Name ++ " cannot be deleted")
          let u := updateInstallationStatus a s1 ComponentPhaseFailed cond
          ((some err, deleted), u.2)
      | none => cleanupLoop a d cond rest true s1

/-- `cleanupOrphanedSubInstallations`: returns `(err, deleted)`. -/
def cleanupOrphanedSubInstallations {σ : Type} (a : Actuator σ) (d : ComponentDefinition)
    (s : State σ) (subInstallations : SubInstallations) : (Option Err × Bool) × State σ :=
  let cond := GetOrInitCondition s.inst.Status.Conditions EnsureSubInstallationsCondition
  cleanupLoop a d cond (a.mapRange subInstallations) false s

/-! ## Child upserter (lines 145-192) -/

/-- The mutate function handed to `CreateOrUpdate` (lines 163-176). -/
def mutateSubInstallation {σ : Type} (a : Actuator σ) (inst : ComponentInstallation)
    (subDefRef : DefinitionReference) (subDef : ComponentDefinition)
    (subInst : ComponentInstallation) : Except Err ComponentInstallation :=
  let subInst := { subInst with Labels := [(EncompassedByLabel, inst.Name)] }
  match a.SetOwnerReference inst subInst with
  | .error err => .error (Wrapf err "unable to set owner reference")
  | .ok subInst =>
    let subInst := { subInst with Spec :=
      { DefinitionRef := subDefRef.Reference,
        Imports := subDefRef.Imports,
        Exports := subDefRef.Exports } }
    .ok (a.AddDefaultMappings subInst subDef)

/-- `createOrUpdateNewInstallation`; `subInst = none` is the nil pointer. -/
def createOrUpdateNewInstallation {σ : Type} (a : Actuator σ) (s : State σ)
    (d : ComponentDefinition) (subDefRef : DefinitionReference)
    (subInst : Option ComponentInstallation) : Except Err ComponentInstallation × State σ :=
  let cond := GetOrInitCondition s.inst.Status.Conditions EnsureSubInstallationsCondition
  let subInst : ComponentInstallation :=
    match subInst with
    | some i => i
    | none => { ComponentInstallation.empty with
        Name := d.Name ++ "-" ++ subDefRef.Name ++ "-", Namespace := s.inst.Namespace }
  let g := a.GetDefinitionByRef s.store subDefRef.Reference
  let s1 : State σ := { s with calls := s.calls ++ [Call.getDefinitionByRef subDefRef.Reference g] }
  match g with
  | .error err =>
    let cond := UpdatedCondition cond .ConditionFalse "ComponentDefinitionNotFound"
      ("ComponentDefinition " ++ subDefRef.Reference ++ " for " ++ subDefRef.Name
        ++ " cannot be found")
    let u := updateInstallationStatus a s1 ComponentPhaseFailed cond
    (.error (Wrapf err ("unable to get definition " ++ subDefRef.Reference ++ " for "
      ++ subDefRef.Name)), u.2)
  | .ok subDef =>
    let r := a.c.CreateOrUpdate s1.store subInst (mutateSubInstallation a s1.inst subDefRef subDef)
    let s2 : State σ := { s1 with
      store := r.2, calls := s1.calls ++ [Call.createOrUpdate subInst r.1] }
    match r.1 with
    | .error err =>
      let cond := UpdatedCondition cond .ConditionFalse "InstallationCreatingFailed"
        ("Sub Installation " ++ subDefRef.Name ++ " cannot be created")
      let u := updateInstallationStatus a s2 ComponentPhaseFailed cond
      (.error (Wrapf err ("unable to create installation for " ++ subDefRef.Name)), u.2)
    | .ok subInst =>
      let inst := { s2.inst with Status := { s2.inst.Status with
        InstallationReferences := s2.inst.Status.InstallationReferences ++
          [NewInstallationReferenceState subDefRef.Name subInst] } }
      let u := a.c.StatusUpdate s2.store inst
      let s3 : State σ :=
        { store := u.2, calls := s2.calls ++ [Call.statusUpdate inst u.1], inst := inst }
      match u.1 with
      | some err =>
        (.error (Wrapf err ("unable to add new installation for " ++ subDefRef.Name
          ++ " to state")), s3)
      | none => (.ok subInst, s3)

/-! ## Orchestrator (lines 32-82) -/

/-- The test of the gate loop (lines 43-53) on one child. -/
def blocksUpdate (subInstallation : ComponentInstallation) : Bool :=
  subInstallation.DeletionTimestamp.isSome ||
    subInstallation.Status.Phase == ComponentPhaseProgressing

/-- The test of lines 66-71: the declared reference is skipped when a child is present under
its name and the comparator asks for no update. -/
def skipsUpsert (subDef : DefinitionReference) (subInst : Option ComponentInstallation) : Bool :=
  match subInst with
  | some i => !installationNeedsUpdate subDef i
  | none => false

/-- The loop of lines 64-77 over the declared references. A child found in the map is a
pointer shared with the map entry, so what `CreateOrUpdate` writes into it is seen by a later
read of the same key; a child created from nil is not put into the map. -/
def upsertLoop {σ : Type} (a : Actuator σ) (d : ComponentDefinition) :
    List DefinitionReference → SubInstallations → State σ → Option Err × State σ
  | [], _, s => (none, s)
  | subDef :: rest, subInstallations, s =>
    let subInst := subInstallations.get subDef.Name
    if skipsUpsert subDef subInst then upsertLoop a d rest subInstallations s
    else
      let r := createOrUpdateNewInstallation a s d subDef subInst
      match r.1 with
      | .error err =>
        (some (Wrapf err ("unable to create installation for " ++ subDef.Name)), r.2)
      | .ok newInst =>
        let subInstallations :=
          match subInst with
          | some _ => subInstallations.set subDef.Name newInst
          | none => subInstallations
        upsertLoop a d rest subInstallations r.2

/-- `EnsureSubInstallations`. -/
def EnsureSubInstallations {σ : Type} (a : Actuator σ) (s : State σ)
    (d : ComponentDefinition) : Option Err × State σ :=
  let cond := GetOrInitCondition s.inst.Status.Conditions EnsureSubInstallationsCondition
  let f := getSubInstallations a s
  match f.1 with
  | .error err => (some err, f.2)
  | .ok subInstallations =>
    if (a.mapRange subInstallations).any (fun e => blocksUpdate e.2) then
      updateInstallationStatus a f.2 ComponentPhaseProgressing cond
    else
      let p := cleanupOrphanedSubInstallations a d f.2 subInstallations
      match p.1.1 with
      | some err => (some err, p.2)
      | none =>
        if p.1.2 then (none, p.2)
        else
          let u := upsertLoop a d d.DefinitionReferences subInstallations p.2
          match u.1 with
          | some err => (some err, u.2)
          | none =>
            let cond := UpdatedCondition cond .ConditionTrue "InstallationsInstalled"
              "All Installations are successfully installed"
            updateInstallationStatus a u.2 u.2.inst.Status.Phase cond

/-! ## Spec-side vocabulary for the comparator -/

/-- The set of (source, destination) pairs of a list of import mappings. -/
def importPairs (l : List DefinitionImportMapping) : Finset (String × String) :=
  (l.map (fun m => (m.From, m.To))).toFinset

/-- The set of (source, destination) pairs of a list of export mappings. -/
def exportPairs (l : List DefinitionExportMapping) : Finset (String × String) :=
  (l.map (fun m => (m.From, m.To))).toFinset

/-- The comparison the spec describes: references, pair sets and counts. -/
def specNeedsUpdate (d : DefinitionReference) (c : ComponentInstallation) : Prop :=
  d.Reference ≠ c.Spec.DefinitionRef ∨
  importPairs d.Imports ≠ importPairs c.Spec.Imports ∨
  exportPairs d.Exports ≠ exportPairs c.Spec.Exports ∨
  d.Imports.length ≠ c.Spec.Imports.length ∨
  d.Exports.length ≠ c.Spec.Exports.length

/-! ## Concrete environment used at witnesses and counterexamples -/

/-- A small in-memory store: objects are kept in a list and identified by namespace and name.
`Delete` answers with an error other than not-found for the names in `failDelete`. -/
def memClient (failDelete : List String) : Client (List ComponentInstallation) where
  Get st key :=
    match st.find? (fun o => o.key = key) with
    | some o => (.ok o, st)
    | none => (.error (.notFound key.Name), st)
  Delete st obj :=
    if obj.Name ∈ failDelete then (some (.other "delete refused"), st)
    else if st.any (fun o => o.key = obj.key) then (none, st.filter (fun o => o.key ≠ obj.key))
    else (some (.notFound obj.Name), st)
  CreateOrUpdate st obj f :=
    match st.find? (fun o => o.key = obj.key) with
    | none =>
      match f obj with
      | .error e => (.error e, st)
      | .ok o => (.ok o, st ++ [o])
    | some ex =>
      match f ex with
      | .error e => (.error e, st)
      | .ok o => (.ok o, st.map (fun x => if x.key = o.key then o else x))
  StatusUpdate st inst :=
    (none, st.map (fun x => if x.key = inst.key then { x with Status := inst.Status } else x))

/-- An actuator over the in-memory store: the registry resolves every reference to a childless
component definition, the owner reference is recorded, no default mapping is added, and a map
is ranged over in the order of its entries. -/
def memActuator (failDelete : List String) : Actuator (List ComponentInstallation) where
  c := memClient failDelete
  GetDefinitionByRef _ ref := .ok { Name := ref, DefinitionReferences := [] }
  SetOwnerReference owner obj := .ok { obj with OwnerReferences := [owner.key] }
  AddDefaultMappings subInst _ := subInst
  mapRange m := m

/-- A child object named `name` in namespace `ns` with the given spec. -/
def mkChild (name : String) (ref : String) (imports : List DefinitionImportMapping) :
    ComponentInstallation :=
  { ComponentInstallation.empty with
    Name := name, Namespace := "ns",
    Spec := { DefinitionRef := ref, Imports := imports, Exports := [] } }

/-- A parent object `root` in namespace `ns` tracking the given references. -/
def mkParent (tracked : List NamedObjectReference) : ComponentInstallation :=
  { ComponentInstallation.empty with
    Name := "root", Namespace := "ns",
    Status := { Phase := "", Conditions := [], InstallationReferences := tracked } }

/-! ## Vocabulary for statements about the calls of a pass -/

def Call.isDelete : Call → Bool
  | .delete _ _ => true
  | _ => false

def Call.isCreateOrUpdate : Call → Bool
  | .createOrUpdate _ _ => true
  | _ => false

def Call.isGetDefinitionByRef : Call → Bool
  | .getDefinitionByRef _ _ => true
  | _ => false

/-- The call is a `Delete` answered with nil. -/
def Call.deleteSucceeded : Call → Bool
  | .delete _ none => true
  | _ => false

/-- The error a `Delete` was answered with, if the call is a `Delete` that failed. -/
def Call.deleteError : Call → Option Err
  | .delete _ (some e) => some e
  | _ => none

/-- The object a `Delete` was issued for. -/
def Call.deleteTarget : Call → Option ComponentInstallation
  | .delete obj _ => some obj
  | _ => none

/-- The call neither deletes nor creates or updates a child nor asks the registry. -/
def Call.quiet (c : Call) : Bool :=
  !c.isDelete && !c.isCreateOrUpdate && !c.isGetDefinitionByRef

/-- The children of the map whose name is not declared in the definition, in the order the
`range` of `cleanupOrphanedSubInstallations` visits them. -/
def orphans {σ : Type} (a : Actuator σ) (d : ComponentDefinition) (m : SubInstallations) :
    List ComponentInstallation :=
  ((a.mapRange m).filter (fun e => (getDefinitionReference d e.1).isNone)).map (fun e => e.2)

/-- Spec side of the upsert selection: the declared references, in declared order, that have
no live child under their name or for which `installationNeedsUpdate` is true. -/
def upsertSelection (d : ComponentDefinition) (m : SubInstallations) :
    List DefinitionReference :=
  d.DefinitionReferences.filter (fun subDef =>
    match m.get subDef.Name with
    | none => true
    | some c => installationNeedsUpdate subDef c)

/-- Spec side of the upsert sequence: `createOrUpdateNewInstallation` is called for the listed
references one after the other, each with the live child of its name; the first call that
fails ends the sequence and its error, with the context `EnsureSubInstallations` adds, is the
result. -/
def upsertInOrder {σ : Type} (a : Actuator σ) (d : ComponentDefinition) (m : SubInstallations) :
    List DefinitionReference → State σ → Option Err × State σ
  | [], s => (none, s)
  | subDef :: rest, s =>
    let r := createOrUpdateNewInstallation a s d subDef (m.get subDef.Name)
    match r.1 with
    | .error err => (some (Wrapf err ("unable to create installation for " ++ subDef.Name)), r.2)
    | .ok _ => upsertInOrder a d m rest r.2

/-! ### Objects used at witnesses and counterexamples -/

/-- A declared child `x` with one import mapping. -/
def declaredX : DefinitionReference := ⟨"x", "def/v1", [⟨"a", "b"⟩], []⟩

/-- A declared child `a`. -/
def declaredA : DefinitionReference := ⟨"a", "def/a", [], []⟩

/-- The definition `root` declaring only `a`. -/
def defA : ComponentDefinition := ⟨"root", [declaredA]⟩

/-- The definition `root` declaring only `x`. -/
def defX : ComponentDefinition := ⟨"root", [declaredX]⟩

/-- The definition `root` declaring `x` and `a`. -/
def defXA : ComponentDefinition := ⟨"root", [declaredX, declaredA]⟩

/-- The tracked reference of child `x`. -/
def trackedX : NamedObjectReference := ⟨"x", ⟨"root-x-", "ns"⟩⟩

/-- A live child for `x` whose spec is the declared one. -/
def childX : ComponentInstallation := mkChild "root-x-" "def/v1" [⟨"a", "b"⟩]

/-- A live child for `x` whose spec has drifted from the declared one. -/
def childXOld : ComponentInstallation := mkChild "root-x-" "def/v0" []

/-- A live child for `x` in phase `Progressing`. -/
def childXProgressing : ComponentInstallation :=
  { childX with Status := { childX.Status with Phase := ComponentPhaseProgressing } }

/-- A live child `b`. -/
def childB : ComponentInstallation := mkChild "b" "def/b" []

/-- A live child `c`. -/
def childC : ComponentInstallation := mkChild "c" "def/c" []

/-- A parent tracking `b` and `c`. -/
def parentBC : ComponentInstallation := mkParent [⟨"b", ⟨"b", "ns"⟩⟩, ⟨"c", ⟨"c", "ns"⟩⟩]

/-- A parent tracking `b`. -/
def parentB : ComponentInstallation := mkParent [⟨"b", ⟨"b", "ns"⟩⟩]

/-- A parent tracking `x`. -/
def parentX : ComponentInstallation := mkParent [trackedX]

/-- The child the in-memory actuator creates for a declared reference of definition `root`
under parent `root` in namespace `ns`. -/
def createdChild (subDef : DefinitionReference) : ComponentInstallation :=
  { ComponentInstallation.empty with
    Name := "root-" ++ subDef.Name ++ "-", Namespace := "ns",
    Labels := [(EncompassedByLabel, "root")],
    OwnerReferences := [⟨"root", "ns"⟩],
    Spec := { DefinitionRef := subDef.Reference, Imports := subDef.Imports,
              Exports := subDef.Exports } }

/-! ### Vocabulary for two passes on the in-memory store -/

/-- The definition `root` declaring `x` twice with the same content. -/
def defXX : ComponentDefinition := ⟨"root", [declaredX, declaredX]⟩

theorem hasMappingOfImports_iff (m : DefinitionImportMapping)
    (l : List DefinitionImportMapping) : hasMappingOfImports m l = true ↔ m ∈ l := by
  induction l with
  | nil => simp [hasMappingOfImports]
  | cons x rest ih =>
    unfold hasMappingOfImports
    by_cases h : x.To = m.To ∧ x.From = m.From
    · have hx : m = x := by
        cases m; cases x; simp_all
      simp [h, hx]
    · have hx : m ≠ x := by
        rintro rfl; exact h ⟨rfl, rfl⟩
      simp [h, hx, ih]

theorem hasMappingOfExports_iff (m : DefinitionExportMapping)
    (l : List DefinitionExportMapping) : hasMappingOfExports m l = true ↔ m ∈ l := by
  induction l with
  | nil => simp [hasMappingOfExports]
  | cons x rest ih =>
    unfold hasMappingOfExports
    by_cases h : x.To = m.To ∧ x.From = m.From
    · have hx : m = x := by
        cases m; cases x; simp_all
      simp [h, hx]
    · have hx : m ≠ x := by
        rintro rfl; exact h ⟨rfl, rfl⟩
      simp [h, hx, ih]

/-- What the five tests of `installationNeedsUpdate` amount to. -/
theorem installationNeedsUpdate_eq_false_iff (d : DefinitionReference)
    (c : ComponentInstallation) :
    installationNeedsUpdate d c = false ↔
      d.Reference = c.Spec.DefinitionRef ∧
      (∀ m ∈ d.Imports, m ∈ c.Spec.Imports) ∧
      (∀ m ∈ d.Exports, m ∈ c.Spec.Exports) ∧
      c.Spec.Imports.length = d.Imports.length ∧
      c.Spec.Exports.length = d.Exports.length := by
  unfold installationNeedsUpdate
  by_cases h1 : d.Reference = c.Spec.DefinitionRef
  · by_cases h2 : ∀ m ∈ d.Imports, m ∈ c.Spec.Imports
    · by_cases h3 : ∀ m ∈ d.Exports, m ∈ c.Spec.Exports
      · by_cases h4 : c.Spec.Imports.length = d.Imports.length
        · by_cases h5 : c.Spec.Exports.length = d.Exports.length
          · simp [h1, h4, h5, List.any_eq_true, hasMappingOfImports_iff,
              hasMappingOfExports_iff, h2, h3]
          · simp [h1, h4, h5, List.any_eq_true, hasMappingOfImports_iff,
              hasMappingOfExports_iff]
        · simp [h1, h4, List.any_eq_true, hasMappingOfImports_iff,
            hasMappingOfExports_iff]
      · have h3e : ∃ m ∈ d.Exports, m ∉ c.Spec.Exports := by
          push_neg at h3; exact h3
        simp [h1, List.any_eq_true, hasMappingOfImports_iff,
          hasMappingOfExports_iff, h3e]
    · have h2e : ∃ m ∈ d.Imports, m ∉ c.Spec.Imports := by
        push_neg at h2; exact h2
      simp [h1, List.any_eq_true, hasMappingOfImports_iff,
        hasMappingOfExports_iff, h2e]
  · simp [h1]

theorem importPairs_mem (m : DefinitionImportMapping) (l : List DefinitionImportMapping) :
    (m.From, m.To) ∈ importPairs l ↔ m ∈ l := by
  unfold importPairs
  simp only [List.mem_toFinset, List.mem_map, Prod.mk.injEq]
  constructor
  · rintro ⟨x, hx, h1, h2⟩
    have : x = m := by cases x; cases m; simp_all
    exact this ▸ hx
  · intro h; exact ⟨m, h, rfl, rfl⟩

theorem exportPairs_mem (m : DefinitionExportMapping) (l : List DefinitionExportMapping) :
    (m.From, m.To) ∈ exportPairs l ↔ m ∈ l := by
  unfold exportPairs
  simp only [List.mem_toFinset, List.mem_map, Prod.mk.injEq]
  constructor
  · rintro ⟨x, hx, h1, h2⟩
    have : x = m := by cases x; cases m; simp_all
    exact this ▸ hx
  · intro h; exact ⟨m, h, rfl, rfl⟩

theorem importPairs_perm {l₁ l₂ : List DefinitionImportMapping} (h : l₁.Perm l₂) :
    importPairs l₁ = importPairs l₂ :=
  List.toFinset_eq_of_perm _ _ (h.map _)

theorem exportPairs_perm {l₁ l₂ : List DefinitionExportMapping} (h : l₁.Perm l₂) :
    exportPairs l₁ = exportPairs l₂ :=
  List.toFinset_eq_of_perm _ _ (h.map _)

/-- A duplicate-free list contained in a list of the same length is a permutation of it. -/
theorem perm_of_nodup_subset_length {α : Type} [DecidableEq α] {l₁ l₂ : List α}
    (hn : l₁.Nodup) (hs : ∀ x ∈ l₁, x ∈ l₂) (hl : l₂.length = l₁.length) : l₁.Perm l₂ :=
  (List.subperm_of_subset hn hs).perm_of_length_le (le_of_eq hl)

/-! ## C1 and C7: the comparator -/

/-- C1 (as stated, refuted): the declared imports `[a→b, a→b]` and the live imports
`[a→b, c→d]` have different pair sets, yet `installationNeedsUpdate` answers false. -/
theorem installationNeedsUpdate_repeated_pair_counterexample :
    ¬ (installationNeedsUpdate
          { Name := "x", Reference := "def/v1",
            Imports := [⟨"a", "b"⟩, ⟨"a", "b"⟩], Exports := [] }
          (mkChild "root-x-" "def/v1" [⟨"a", "b"⟩, ⟨"c", "d"⟩]) = true ↔
        specNeedsUpdate
          { Name := "x", Reference := "def/v1",
            Imports := [⟨"a", "b"⟩, ⟨"a", "b"⟩], Exports := [] }
          (mkChild "root-x-" "def/v1" [⟨"a", "b"⟩, ⟨"c", "d"⟩])) := by
  intro h
  have hcode : installationNeedsUpdate
      { Name := "x", Reference := "def/v1",
        Imports := [⟨"a", "b"⟩, ⟨"a", "b"⟩], Exports := [] }
      (mkChild "root-x-" "def/v1" [⟨"a", "b"⟩, ⟨"c", "d"⟩]) = false := by decide
  rw [hcode] at h
  refine Bool.false_ne_true (h.mpr (Or.inr (Or.inl ?_)))
  intro heq
  have hmem : (("c", "d") : String × String) ∈
      importPairs (mkChild "root-x-" "def/v1" [⟨"a", "b"⟩, ⟨"c", "d"⟩]).Spec.Imports := by
    simp [importPairs, mkChild]
  rw [← heq] at hmem
  simp [importPairs] at hmem

/-- C1 (amended): when the declared import and export lists contain no repeated pair,
`installationNeedsUpdate` answers true exactly when the definition reference differs, or the
pair sets of the imports or of the exports differ, or the lists differ in length. -/
theorem installationNeedsUpdate_iff_spec_of_nodup (d : DefinitionReference)
    (c : ComponentInstallation) (hI : d.Imports.Nodup) (hE : d.Exports.Nodup) :
    installationNeedsUpdate d c = true ↔ specNeedsUpdate d c := by
  rw [← Bool.not_eq_false, installationNeedsUpdate_eq_false_iff]
  unfold specNeedsUpdate
  constructor
  · intro h
    by_contra hn
    push_neg at hn
    obtain ⟨h1, h2, h3, h4, h5⟩ := hn
    refine h ⟨h1, ?_, ?_, h4.symm, h5.symm⟩
    · intro m hm
      rw [← importPairs_mem, ← h2, importPairs_mem]; exact hm
    · intro m hm
      rw [← exportPairs_mem, ← h3, exportPairs_mem]; exact hm
  · rintro h ⟨h1, h2, h3, h4, h5⟩
    rcases h with h | h | h | h | h
    · exact h h1
    · exact h (importPairs_perm (perm_of_nodup_subset_length hI h2 h4))
    · exact h (exportPairs_perm (perm_of_nodup_subset_length hE h3 h5))
    · exact h h4.symm
    · exact h h5.symm

/-- Witness for C1: duplicate-free declared lists, live imports in another order. -/
theorem installationNeedsUpdate_iff_spec_of_nodup_witness :
    installationNeedsUpdate
        { Name := "x", Reference := "def/v1",
          Imports := [⟨"a", "b"⟩, ⟨"c", "d"⟩], Exports := [⟨"e", "f"⟩] }
        (mkChild "root-x-" "def/v1" [⟨"c", "d"⟩, ⟨"a", "b"⟩]) = true ↔
      specNeedsUpdate
        { Name := "x", Reference := "def/v1",
          Imports := [⟨"a", "b"⟩, ⟨"c", "d"⟩], Exports := [⟨"e", "f"⟩] }
        (mkChild "root-x-" "def/v1" [⟨"c", "d"⟩, ⟨"a", "b"⟩]) :=
  installationNeedsUpdate_iff_spec_of_nodup _ _ (by decide) (by decide)

/-- C7: replacing the declared import and export lists and the live import and export lists
by permutations of themselves does not change the answer of `installationNeedsUpdate`; and a
live child whose reference equals the declared one and whose import and export lists are
permutations of the declared ones needs no update. -/
theorem installationNeedsUpdate_perm (d : DefinitionReference) (c : ComponentInstallation)
    (dI cI : List DefinitionImportMapping) (dE cE : List DefinitionExportMapping)
    (hdI : dI.Perm d.Imports) (hdE : dE.Perm d.Exports)
    (hcI : cI.Perm c.Spec.Imports) (hcE : cE.Perm c.Spec.Exports) :
    installationNeedsUpdate { d with Imports := dI, Exports := dE }
        { c with Spec := { c.Spec with Imports := cI, Exports := cE } } =
      installationNeedsUpdate d c ∧
    installationNeedsUpdate d
        { c with Spec := { DefinitionRef := d.Reference, Imports := dI, Exports := dE } } =
      false := by
  constructor
  · have key : ∀ b₁ b₂ : Bool, (b₁ = false ↔ b₂ = false) → b₁ = b₂ := by decide
    apply key
    rw [installationNeedsUpdate_eq_false_iff, installationNeedsUpdate_eq_false_iff]
    simp only [hdI.mem_iff, hdE.mem_iff, hcI.mem_iff, hcE.mem_iff, hdI.length_eq,
      hdE.length_eq, hcI.length_eq, hcE.length_eq]
  · rw [installationNeedsUpdate_eq_false_iff]
    exact ⟨rfl, fun m hm => hdI.mem_iff.mpr hm, fun m hm => hdE.mem_iff.mpr hm,
      hdI.length_eq, hdE.length_eq⟩

/-- Witness for C7: both import lists swapped. -/
theorem installationNeedsUpdate_perm_witness :
    installationNeedsUpdate
        { Name := "x", Reference := "def/v1",
          Imports := [⟨"c", "d"⟩, ⟨"a", "b"⟩], Exports := [] }
        { (mkChild "root-x-" "def/v2" [⟨"a", "b"⟩, ⟨"c", "d"⟩]) with
          Spec := { (mkChild "root-x-" "def/v2" [⟨"a", "b"⟩, ⟨"c", "d"⟩]).Spec with
            Imports := [⟨"c", "d"⟩, ⟨"a", "b"⟩], Exports := [] } } =
      installationNeedsUpdate
        { Name := "x", Reference := "def/v1",
          Imports := [⟨"a", "b"⟩, ⟨"c", "d"⟩], Exports := [] }
        (mkChild "root-x-" "def/v2" [⟨"a", "b"⟩, ⟨"c", "d"⟩]) ∧
    installationNeedsUpdate
        { Name := "x", Reference := "def/v1",
          Imports := [⟨"a", "b"⟩, ⟨"c", "d"⟩], Exports := [] }
        { (mkChild "root-x-" "def/v2" [⟨"a", "b"⟩, ⟨"c", "d"⟩]) with
          Spec := ⟨"def/v1", [⟨"c", "d"⟩, ⟨"a", "b"⟩], []⟩ } = false :=
  installationNeedsUpdate_perm
    { Name := "x", Reference := "def/v1", Imports := [⟨"a", "b"⟩, ⟨"c", "d"⟩], Exports := [] }
    (mkChild "root-x-" "def/v2" [⟨"a", "b"⟩, ⟨"c", "d"⟩])
    [⟨"c", "d"⟩, ⟨"a", "b"⟩] [⟨"c", "d"⟩, ⟨"a", "b"⟩] [] []
    (by decide) (by decide) (by decide) (by decide)

/-! ## Calls issued by the stages -/

theorem updateInstallationStatus_calls {σ : Type} (a : Actuator σ) (s : State σ)
    (phase : String) (cond : Condition) :
    (updateInstallationStatus a s phase cond).2.calls =
      s.calls ++ [Call.statusUpdate (updateInstallationStatus a s phase cond).2.inst
        (updateInstallationStatus a s phase cond).1] := rfl

theorem updateInstallationStatus_phase {σ : Type} (a : Actuator σ) (s : State σ)
    (phase : String) (cond : Condition) :
    (updateInstallationStatus a s phase cond).2.inst.Status.Phase = phase := rfl

theorem updateInstallationStatus_conditions {σ : Type} (a : Actuator σ) (s : State σ)
    (phase : String) (cond : Condition) :
    (updateInstallationStatus a s phase cond).2.inst.Status.Conditions =
      CreateOrUpdateConditions s.inst.Status.Conditions cond := rfl

/-- The fetch loop adds only `Get` calls and, on failure, one status write; when it
succeeds the parent object is untouched. -/
theorem getSubInstallationsLoop_calls {σ : Type} (a : Actuator σ) (cond : Condition)
    (refs : List NamedObjectReference) :
    ∀ (m : SubInstallations) (u : List NamedObjectReference) (s : State σ),
      (∀ c ∈ (getSubInstallationsLoop a cond refs m u s).2.calls,
          c ∈ s.calls ∨ c.quiet = true) ∧
        (∀ r, (getSubInstallationsLoop a cond refs m u s).1 = .ok r →
          (getSubInstallationsLoop a cond refs m u s).2.inst = s.inst) := by
  induction refs with
  | nil =>
    intro m u s
    exact ⟨fun c hc => Or.inl hc, fun _ _ => rfl⟩
  | cons ref rest ih =>
    intro m u s
    unfold getSubInstallationsLoop
    simp only []
    cases hres : (a.c.Get s.store ref.Reference).1 with
    | error err =>
      simp only []
      by_cases hnf : IsNotFound err = true
      · simp only [hnf, Bool.not_true, Bool.false_eq_true, if_false]
        obtain ⟨h2, h3⟩ := ih m u
          { s with store := (a.c.Get s.store ref.Reference).2,
                   calls := s.calls ++ [Call.get ref.Reference (.error err)] }
        refine ⟨?_, fun r hr => h3 r hr⟩
        intro c hc
        rcases h2 c hc with h | h
        · rcases List.mem_append.mp h with h | h
          · exact Or.inl h
          · simp only [List.mem_singleton] at h; subst h; exact Or.inr rfl
        · exact Or.inr h
      · have hnf' : IsNotFound err = false := by simpa using hnf
        simp only [hnf', Bool.not_false, if_true]
        refine ⟨?_, fun r hr => by cases hr⟩
        intro c hc
        rw [updateInstallationStatus_calls] at hc
        simp only [List.mem_append, List.mem_singleton] at hc
        rcases hc with (h | h) | h
        · exact Or.inl h
        · subst h; exact Or.inr rfl
        · subst h; exact Or.inr rfl
    | ok subInst =>
      simp only []
      obtain ⟨h2, h3⟩ := ih (m.set ref.Name subInst) (u ++ [ref])
        { s with store := (a.c.Get s.store ref.Reference).2,
                 calls := s.calls ++ [Call.get ref.Reference (.ok subInst)] }
      refine ⟨?_, fun r hr => h3 r hr⟩
      intro c hc
      rcases h2 c hc with h | h
      · rcases List.mem_append.mp h with h | h
        · exact Or.inl h
        · simp only [List.mem_singleton] at h; subst h; exact Or.inr rfl
      · exact Or.inr h

/-- `getSubInstallations` adds only `Get` calls and status writes; when it succeeds the
parent object is untouched. -/
theorem getSubInstallations_calls {σ : Type} (a : Actuator σ) (s : State σ) :
    (∀ c ∈ (getSubInstallations a s).2.calls, c ∈ s.calls ∨ c.quiet = true) ∧
      (∀ m, (getSubInstallations a s).1 = .ok m → (getSubInstallations a s).2.inst = s.inst) := by
  obtain ⟨h2, h3⟩ := getSubInstallationsLoop_calls a
    (GetOrInitCondition s.inst.Status.Conditions EnsureSubInstallationsCondition)
    s.inst.Status.InstallationReferences [] [] s
  unfold getSubInstallations
  simp only []
  cases hres : (getSubInstallationsLoop a
    (GetOrInitCondition s.inst.Status.Conditions EnsureSubInstallationsCondition)
    s.inst.Status.InstallationReferences [] [] s).1 with
  | error err =>
    exact ⟨h2, by intro m hm; cases hm⟩
  | ok r =>
    obtain ⟨subs, upd⟩ := r
    simp only []
    split
    · have hq : ∀ res, ∀ c ∈ (getSubInstallationsLoop a
          (GetOrInitCondition s.inst.Status.Conditions EnsureSubInstallationsCondition)
          s.inst.Status.InstallationReferences [] [] s).2.calls ++
            [Call.statusUpdate (getSubInstallationsLoop a
              (GetOrInitCondition s.inst.Status.Conditions EnsureSubInstallationsCondition)
              s.inst.Status.InstallationReferences [] [] s).2.inst res],
          c ∈ s.calls ∨ c.quiet = true := by
        intro res c hc
        rcases List.mem_append.mp hc with hc | hc
        · exact h2 c hc
        · simp only [List.mem_singleton] at hc; subst hc; exact Or.inr rfl
      cases hu : (a.c.StatusUpdate _ _).1 with
      | none =>
        simp only []
        exact ⟨hq none, fun m _ => h3 _ hres⟩
      | some err =>
        simp only []
        exact ⟨hq (some err), by intro m hm; cases hm⟩
    · exact ⟨h2, fun m _ => h3 _ hres⟩

/-! ## C2: the safety gate -/

/-- C2: when the fetch succeeds and some child of the returned mapping has a
`DeletionTimestamp` or is in phase `Progressing`, the pass issues no `Delete`, no
`CreateOrUpdate` and no registry lookup; after the calls of the fetch it issues exactly one
call, the status write of the parent, which carries phase `Progressing` and whose result is
the result of the pass. -/
theorem EnsureSubInstallations_gate {σ : Type} (a : Actuator σ) (hr : a.RangeOK)
    (store : σ) (inst : ComponentInstallation) (d : ComponentDefinition)
    (m : SubInstallations)
    (hfetch : (getSubInstallations a (State.init store inst)).1 = .ok m)
    (hblocked : ∃ e ∈ m, e.2.DeletionTimestamp ≠ none ∨
      e.2.Status.Phase = ComponentPhaseProgressing) :
    (∀ c ∈ (EnsureSubInstallations a (State.init store inst) d).2.calls,
      c.isDelete = false ∧ c.isCreateOrUpdate = false ∧ c.isGetDefinitionByRef = false) ∧
    ∃ written,
      (EnsureSubInstallations a (State.init store inst) d).2.calls =
        (getSubInstallations a (State.init store inst)).2.calls ++
          [Call.statusUpdate written (EnsureSubInstallations a (State.init store inst) d).1] ∧
      written.Status.Phase = ComponentPhaseProgressing ∧
      (EnsureSubInstallations a (State.init store inst) d).2.inst = written := by
  have hany : (a.mapRange m).any (fun e => blocksUpdate e.2) = true := by
    rw [List.any_eq_true]
    obtain ⟨e, he, hb⟩ := hblocked
    refine ⟨e, (hr m).mem_iff.mpr he, ?_⟩
    unfold blocksUpdate
    rcases hb with hb | hb
    · cases hd : e.2.DeletionTimestamp with
      | none => exact absurd hd hb
      | some t => rfl
    · simp [hb]
  have heq : EnsureSubInstallations a (State.init store inst) d =
      updateInstallationStatus a (getSubInstallations a (State.init store inst)).2
        ComponentPhaseProgressing
        (GetOrInitCondition inst.Status.Conditions EnsureSubInstallationsCondition) := by
    unfold EnsureSubInstallations
    simp only [hfetch, hany, if_true]
    rfl
  rw [heq]
  refine ⟨?_, _, updateInstallationStatus_calls _ _ _ _, rfl, rfl⟩
  intro c hc
  rw [updateInstallationStatus_calls] at hc
  have hq : c.quiet = true := by
    rcases List.mem_append.mp hc with hc | hc
    · rcases (getSubInstallations_calls a (State.init store inst)).1 c hc with h | h
      · simp [State.init] at h
      · exact h
    · simp only [List.mem_singleton] at hc; subst hc; rfl
  cases c <;> simp_all [Call.quiet, Call.isDelete, Call.isCreateOrUpdate,
    Call.isGetDefinitionByRef]

/-- Witness for C2: the only tracked child is `Progressing`. -/
theorem EnsureSubInstallations_gate_witness :
    (memActuator []).RangeOK ∧
    (getSubInstallations (memActuator [])
      (State.init [parentX, childXProgressing] parentX)).1 = .ok [("x", childXProgressing)] ∧
    (∃ e ∈ [("x", childXProgressing)], e.2.DeletionTimestamp ≠ none ∨
      e.2.Status.Phase = ComponentPhaseProgressing) ∧
    (∀ c ∈ (EnsureSubInstallations (memActuator [])
        (State.init [parentX, childXProgressing] parentX) defXA).2.calls,
      c.isDelete = false ∧ c.isCreateOrUpdate = false ∧ c.isGetDefinitionByRef = false) :=
  ⟨fun m => List.Perm.refl m, rfl, by decide,
    (EnsureSubInstallations_gate (memActuator []) (fun m => List.Perm.refl m)
      [parentX, childXProgressing] parentX defXA [("x", childXProgressing)] rfl
      (by decide)).1⟩

/-! ## The prune loop -/

/-- What one run of the prune loop does, in terms of the calls it adds. -/
theorem cleanupLoop_spec {σ : Type} (a : Actuator σ) (d : ComponentDefinition)
    (cond : Condition) (l : SubInstallations) :
    ∀ (deleted : Bool) (s : State σ), ∃ new,
      (cleanupLoop a d cond l deleted s).2.calls = s.calls ++ new ∧
      (∀ c ∈ new, c.isCreateOrUpdate = false ∧ c.isGetDefinitionByRef = false) ∧
      (∀ e, (cleanupLoop a d cond l deleted s).1.1 = some e ↔
        ∃ obj, Call.delete obj (some e) ∈ new ∧ IsNotFound e = false) ∧
      ((cleanupLoop a d cond l deleted s).1.2 = true ↔
        deleted = true ∨ ∃ c ∈ new, c.deleteSucceeded = true) ∧
      ((cleanupLoop a d cond l deleted s).1.1 = none →
        new.filterMap Call.deleteTarget =
          (l.filter (fun e => (getDefinitionReference d e.1).isNone)).map (fun e => e.2)) ∧
      ((∀ c ∈ new, c.deleteError = none) →
        new = ((l.filter (fun e => (getDefinitionReference d e.1).isNone)).map
          (fun e => e.2)).map (fun o => Call.delete o none)) := by
  induction l with
  | nil =>
    intro deleted s
    refine ⟨[], by simp [cleanupLoop], by simp, ?_, ?_, ?_, ?_⟩
    · intro e; simp [cleanupLoop]
    · simp [cleanupLoop]
    · intro _; rfl
    · intro _; rfl
  | cons hd rest ih =>
    obtain ⟨defName, subInst⟩ := hd
    intro deleted s
    unfold cleanupLoop
    by_cases hdecl : (getDefinitionReference d defName).isSome = true
    · have hnone : (getDefinitionReference d defName).isNone = false := by
        cases h : getDefinitionReference d defName <;> simp_all
      simp only [hdecl, if_true, List.filter_cons, hnone, Bool.false_eq_true, if_false]
      exact ih deleted s
    · have hnone : (getDefinitionReference d defName).isNone = true := by
        cases h : getDefinitionReference d defName <;> simp_all
      simp only [hdecl, Bool.false_eq_true, if_false, List.filter_cons, hnone, if_true,
        List.map_cons]
      cases hres : (a.c.Delete s.store subInst).1 with
      | none =>
        simp only []
        obtain ⟨new, h1, h2, h3, h4, h5, h6⟩ := ih true
          { s with store := (a.c.Delete s.store subInst).2,
                   calls := s.calls ++ [Call.delete subInst none] }
        refine ⟨Call.delete subInst none :: new, ?_, ?_, ?_, ?_, ?_, ?_⟩
        · rw [h1]; simp
        · intro c hc
          rcases List.mem_cons.mp hc with rfl | hc
          · exact ⟨rfl, rfl⟩
          · exact h2 c hc
        · intro e
          rw [h3 e]
          constructor
          · rintro ⟨obj, ho, hn⟩; exact ⟨obj, List.mem_cons_of_mem _ ho, hn⟩
          · rintro ⟨obj, ho, hn⟩
            rcases List.mem_cons.mp ho with h | h
            · cases h
            · exact ⟨obj, h, hn⟩
        · rw [h4]
          constructor
          · intro _; exact Or.inr ⟨_, List.mem_cons_self _ _, rfl⟩
          · intro _; exact Or.inl rfl
        · intro hn
          simp only [List.filterMap_cons, Call.deleteTarget]
          rw [h5 hn]
        · intro hall
          rw [h6 (fun c hc => hall c (List.mem_cons_of_mem _ hc))]
      | some err =>
        simp only []
        by_cases hnf : IsNotFound err = true
        · simp only [hnf, if_true]
          obtain ⟨new, h1, h2, h3, h4, h5, h6⟩ := ih deleted
            { s with store := (a.c.Delete s.store subInst).2,
                     calls := s.calls ++ [Call.delete subInst (some err)] }
          refine ⟨Call.delete subInst (some err) :: new, ?_, ?_, ?_, ?_, ?_, ?_⟩
          · rw [h1]; simp
          · intro c hc
            rcases List.mem_cons.mp hc with rfl | hc
            · exact ⟨rfl, rfl⟩
            · exact h2 c hc
          · intro e
            rw [h3 e]
            constructor
            · rintro ⟨obj, ho, hn⟩; exact ⟨obj, List.mem_cons_of_mem _ ho, hn⟩
            · rintro ⟨obj, ho, hn⟩
              rcases List.mem_cons.mp ho with h | h
              · cases h; rw [hnf] at hn; cases hn
              · exact ⟨obj, h, hn⟩
          · rw [h4]
            constructor
            · rintro (h | ⟨c, hc, hs⟩)
              · exact Or.inl h
              · exact Or.inr ⟨c, List.mem_cons_of_mem _ hc, hs⟩
            · rintro (h | ⟨c, hc, hs⟩)
              · exact Or.inl h
              · rcases List.mem_cons.mp hc with rfl | hc
                · cases hs
                · exact Or.inr ⟨c, hc, hs⟩
          · intro hn
            simp only [List.filterMap_cons, Call.deleteTarget]
            rw [h5 hn]
          · intro hall
            have := hall _ (List.mem_cons_self _ _)
            cases this
        · have hnf' : IsNotFound err = false := by simpa using hnf
          simp only [hnf', Bool.false_eq_true, if_false]
          refine ⟨[Call.delete subInst (some err),
            Call.statusUpdate
              (updateInstallationStatus a
                { s with store := (a.c.Delete s.store subInst).2,
                         calls := s.calls ++ [Call.delete subInst (some err)] }
                ComponentPhaseFailed
                (UpdatedCondition cond .ConditionFalse "InstallationNotDeleted"
                  ("Sub Installation " ++ subInst.Name ++ " cannot be deleted"))).2.inst
              (updateInstallationStatus a
                { s with store := (a.c.Delete s.store subInst).2,
                         calls := s.calls ++ [Call.delete subInst (some err)] }
                ComponentPhaseFailed
                (UpdatedCondition cond .ConditionFalse "InstallationNotDeleted"
                  ("Sub Installation " ++ subInst.Name ++ " cannot be deleted"))).1],
            ?_, ?_, ?_, ?_, ?_, ?_⟩
          · rw [updateInstallationStatus_calls]; simp
          · intro c hc
            simp only [List.mem_cons, List.mem_singleton, List.not_mem_nil, or_false] at hc
            rcases hc with rfl | rfl <;> exact ⟨rfl, rfl⟩
          · intro e
            constructor
            · intro h
              simp only [Option.some.injEq] at h
              subst h
              exact ⟨subInst, List.mem_cons_self _ _, hnf'⟩
            · rintro ⟨obj, ho, _⟩
              simp only [List.mem_cons, List.mem_singleton, List.not_mem_nil, or_false,
                Call.delete.injEq, Option.some.injEq] at ho
              rcases ho with ⟨_, h⟩ | h
              · rw [h]
              · cases h
          · constructor
            · intro h; exact Or.inl h
            · rintro (h | ⟨c, hc, hs⟩)
              · exact h
              · simp only [List.mem_cons, List.mem_singleton, List.not_mem_nil,
                  or_false] at hc
                rcases hc with rfl | rfl <;> cases hs
          · intro h; cases h
          · intro hall
            have := hall _ (List.mem_cons_self _ _)
            cases this

/-! ## C8 and C10: the orphan pruner -/

/-- C8: `cleanupOrphanedSubInstallations` returns the error `e` exactly when one of the
deletes it issued failed with `e` and `e` is not a not-found error; and when every failed
delete of the call reported not-found, no error is returned and every orphan of the map was
sent its delete, those after a not-found answer included. -/
theorem cleanupOrphanedSubInstallations_error {σ : Type} (a : Actuator σ)
    (d : ComponentDefinition) (s : State σ) (m : SubInstallations) :
    ∃ new,
      (cleanupOrphanedSubInstallations a d s m).2.calls = s.calls ++ new ∧
      (∀ e, (cleanupOrphanedSubInstallations a d s m).1.1 = some e ↔
        ∃ obj, Call.delete obj (some e) ∈ new ∧ IsNotFound e = false) ∧
      ((∀ c ∈ new, ∀ e, c.deleteError = some e → IsNotFound e = true) →
        (cleanupOrphanedSubInstallations a d s m).1.1 = none ∧
        new.filterMap Call.deleteTarget = orphans a d m) := by
  obtain ⟨new, h1, _, h3, _, h5, _⟩ := cleanupLoop_spec a d
    (GetOrInitCondition s.inst.Status.Conditions EnsureSubInstallationsCondition)
    (a.mapRange m) false s
  refine ⟨new, h1, h3, ?_⟩
  intro hall
  have hnone : (cleanupOrphanedSubInstallations a d s m).1.1 = none := by
    cases hr : (cleanupOrphanedSubInstallations a d s m).1.1 with
    | none => rfl
    | some e =>
      obtain ⟨obj, ho, hn⟩ := (h3 e).mp hr
      have := hall _ ho e rfl
      rw [hn] at this; cases this
  exact ⟨hnone, h5 hnone⟩

/-- C10 (as stated, refuted): with two live children `b` and `c` that the definition does not
declare, a single call of `cleanupOrphanedSubInstallations` issues two deletes that both
succeed; it does not stop after the first. -/
theorem cleanupOrphanedSubInstallations_two_orphans_counterexample :
    ((cleanupOrphanedSubInstallations (memActuator [])
        defA
        (State.init [parentBC, childB, childC] parentBC)
        [("b", childB), ("c", childC)]).2.calls.filter
          Call.deleteSucceeded).length = 2 ∧
    (cleanupOrphanedSubInstallations (memActuator [])
        defA
        (State.init [parentBC, childB, childC] parentBC)
        [("b", childB), ("c", childC)]).1 = (none, true) := by
  decide

/-- C10 (amended): a successful delete does not end the loop of
`cleanupOrphanedSubInstallations`. When no delete of the call is answered with an error, the
call issues one delete for every child whose name is not declared, in the order the map is
ranged over, all of them in this one call, and returns no error with `deleted` true exactly
when there was such a child. -/
theorem cleanupOrphanedSubInstallations_deletes_all {σ : Type} (a : Actuator σ)
    (d : ComponentDefinition) (s : State σ) (m : SubInstallations)
    (hok : ∀ c ∈ (cleanupOrphanedSubInstallations a d s m).2.calls.drop s.calls.length,
      c.deleteError = none) :
    (cleanupOrphanedSubInstallations a d s m).2.calls =
      s.calls ++ (orphans a d m).map (fun o => Call.delete o none) ∧
    (cleanupOrphanedSubInstallations a d s m).1 = (none, !(orphans a d m).isEmpty) := by
  obtain ⟨new, h1, _, h3, h4, _, h6⟩ := cleanupLoop_spec a d
    (GetOrInitCondition s.inst.Status.Conditions EnsureSubInstallationsCondition)
    (a.mapRange m) false s
  have h1' : (cleanupOrphanedSubInstallations a d s m).2.calls = s.calls ++ new := h1
  rw [h1', List.drop_left] at hok
  have hnew : new = (orphans a d m).map (fun o => Call.delete o none) := h6 hok
  have hnone : (cleanupOrphanedSubInstallations a d s m).1.1 = none := by
    cases hr : (cleanupOrphanedSubInstallations a d s m).1.1 with
    | none => rfl
    | some e =>
      obtain ⟨obj, ho, _⟩ := (h3 e).mp hr
      have := hok _ ho
      cases this
  have hflag : (cleanupOrphanedSubInstallations a d s m).1.2 = !(orphans a d m).isEmpty := by
    have key : ∀ b₁ b₂ : Bool, (b₁ = true ↔ b₂ = true) → b₁ = b₂ := by decide
    apply key
    refine Iff.trans h4 ?_
    rw [hnew]
    cases ho : orphans a d m with
    | nil => simp
    | cons o rest => simp [Call.deleteSucceeded]
  refine ⟨by rw [h1', hnew], ?_⟩
  exact Prod.ext hnone hflag

/-- Witness for C10: two undeclared children, both deletes accepted. -/
theorem cleanupOrphanedSubInstallations_deletes_all_witness :
    (∀ c ∈ (cleanupOrphanedSubInstallations (memActuator [])
        defA
        (State.init [parentBC, childB, childC] parentBC)
        [("b", childB), ("c", childC)]).2.calls.drop
          (State.init [parentBC, childB, childC] parentBC).calls.length,
      c.deleteError = none) ∧
    (cleanupOrphanedSubInstallations (memActuator [])
        defA
        (State.init [parentBC, childB, childC] parentBC)
        [("b", childB), ("c", childC)]).1 = (none, true) :=
  ⟨by decide,
   (cleanupOrphanedSubInstallations_deletes_all (memActuator [])
      defA
      (State.init [parentBC, childB, childC] parentBC)
      [("b", childB), ("c", childC)] (by decide)).2⟩

/-! ## The upsert stage issues no delete -/

theorem createOrUpdateNewInstallation_calls {σ : Type} (a : Actuator σ) (s : State σ)
    (d : ComponentDefinition) (subDefRef : DefinitionReference)
    (subInst : Option ComponentInstallation) :
    ∀ c ∈ (createOrUpdateNewInstallation a s d subDefRef subInst).2.calls,
      c ∈ s.calls ∨ c.isDelete = false := by
  intro c hc
  unfold createOrUpdateNewInstallation at hc
  simp only [] at hc
  split at hc
  · rw [updateInstallationStatus_calls] at hc
    simp only [List.mem_append, List.mem_singleton] at hc
    rcases hc with (h | h) | h
    · exact Or.inl h
    · subst h; exact Or.inr rfl
    · subst h; exact Or.inr rfl
  · split at hc
    · rw [updateInstallationStatus_calls] at hc
      simp only [List.mem_append, List.mem_singleton] at hc
      rcases hc with ((h | h) | h) | h
      · exact Or.inl h
      · subst h; exact Or.inr rfl
      · subst h; exact Or.inr rfl
      · subst h; exact Or.inr rfl
    · split at hc <;>
      · simp only [List.mem_append, List.mem_singleton] at hc
        rcases hc with ((h | h) | h) | h
        · exact Or.inl h
        · subst h; exact Or.inr rfl
        · subst h; exact Or.inr rfl
        · subst h; exact Or.inr rfl

theorem upsertLoop_calls {σ : Type} (a : Actuator σ) (d : ComponentDefinition)
    (l : List DefinitionReference) :
    ∀ (m : SubInstallations) (s : State σ),
      ∀ c ∈ (upsertLoop a d l m s).2.calls, c ∈ s.calls ∨ c.isDelete = false := by
  induction l with
  | nil => intro m s c hc; exact Or.inl hc
  | cons subDef rest ih =>
    intro m s c hc
    unfold upsertLoop at hc
    simp only [] at hc
    split at hc
    · exact ih m s c hc
    · split at hc
      · exact createOrUpdateNewInstallation_calls a s d subDef _ c hc
      · rcases ih _ _ c hc with h | h
        · exact createOrUpdateNewInstallation_calls a s d subDef _ c h
        · exact Or.inr h

theorem Call.not_delete_of_quiet {c : Call} (h : c.quiet = true) : c.isDelete = false := by
  cases c <;> simp_all [Call.quiet, Call.isDelete]

theorem Call.deleteSucceeded_isDelete {c : Call} (h : c.deleteSucceeded = true) :
    c.isDelete = true := by
  cases c <;> simp_all [Call.deleteSucceeded, Call.isDelete]

/-- The prune stage, in terms of the calls it adds. -/
theorem cleanupOrphanedSubInstallations_spec {σ : Type} (a : Actuator σ)
    (d : ComponentDefinition) (s : State σ) (m : SubInstallations) :
    ∃ new,
      (cleanupOrphanedSubInstallations a d s m).2.calls = s.calls ++ new ∧
      (∀ c ∈ new, c.isCreateOrUpdate = false ∧ c.isGetDefinitionByRef = false) ∧
      (∀ e, (cleanupOrphanedSubInstallations a d s m).1.1 = some e ↔
        ∃ obj, Call.delete obj (some e) ∈ new ∧ IsNotFound e = false) ∧
      ((cleanupOrphanedSubInstallations a d s m).1.2 = true ↔
        ∃ c ∈ new, c.deleteSucceeded = true) := by
  obtain ⟨new, h1, h2, h3, h4, _, _⟩ := cleanupLoop_spec a d
    (GetOrInitCondition s.inst.Status.Conditions EnsureSubInstallationsCondition)
    (a.mapRange m) false s
  refine ⟨new, h1, h2, h3, ?_⟩
  refine Iff.trans h4 ?_
  simp

theorem Call.quiet_spec {c : Call} (h : c.quiet = true) :
    c.isDelete = false ∧ c.isCreateOrUpdate = false ∧ c.isGetDefinitionByRef = false := by
  cases c <;> simp_all [Call.quiet, Call.isDelete, Call.isCreateOrUpdate,
    Call.isGetDefinitionByRef]

/-! ## C4: a pass that deleted an orphan -/

/-- C4 (as stated, refuted): the gate passes, the delete of the undeclared child `b` succeeds,
the delete of the undeclared child `c` is refused by the store, and the pass returns that
error. -/
theorem EnsureSubInstallations_delete_then_failure_counterexample :
    (getSubInstallations (memActuator ["c"])
        (State.init [parentBC, childB, childC] parentBC)).1 =
      .ok [("b", childB), ("c", childC)] ∧
    blocksUpdate childB = false ∧
    blocksUpdate childC = false ∧
    (EnsureSubInstallations (memActuator ["c"])
        (State.init [parentBC, childB, childC] parentBC)
        defA).2.calls.any
      Call.deleteSucceeded = true ∧
    (EnsureSubInstallations (memActuator ["c"])
        (State.init [parentBC, childB, childC] parentBC)
        defA).1 =
      some (.other "delete refused") := by
  refine ⟨rfl, by decide, by decide, by decide, by decide⟩

/-- C4 (amended): in a pass in which the delete of some child succeeded, no child is created
or updated and the registry is not asked; the pass returns no error unless one of its deletes
failed with an error other than not-found, and then it returns that delete's error. -/
theorem EnsureSubInstallations_after_delete {σ : Type} (a : Actuator σ) (store : σ)
    (inst : ComponentInstallation) (d : ComponentDefinition)
    (hdel : ∃ c ∈ (EnsureSubInstallations a (State.init store inst) d).2.calls,
      c.deleteSucceeded = true) :
    (∀ c ∈ (EnsureSubInstallations a (State.init store inst) d).2.calls,
      c.isCreateOrUpdate = false ∧ c.isGetDefinitionByRef = false) ∧
    (∀ e, (EnsureSubInstallations a (State.init store inst) d).1 = some e ↔
      ∃ obj, Call.delete obj (some e) ∈
        (EnsureSubInstallations a (State.init store inst) d).2.calls ∧
        IsNotFound e = false) := by
  have hf : ∀ c ∈ (getSubInstallations a (State.init store inst)).2.calls, c.quiet = true := by
    intro c hc
    rcases (getSubInstallations_calls a (State.init store inst)).1 c hc with h | h
    · simp [State.init] at h
    · exact h
  revert hdel
  unfold EnsureSubInstallations
  simp only []
  cases hfetch : (getSubInstallations a (State.init store inst)).1 with
  | error err =>
    simp only []
    rintro ⟨c, hc, hs⟩
    have := Call.not_delete_of_quiet (hf c hc)
    rw [Call.deleteSucceeded_isDelete hs] at this; cases this
  | ok m =>
    simp only []
    by_cases hg : (a.mapRange m).any (fun e => blocksUpdate e.2) = true
    · simp only [hg, if_true]
      rintro ⟨c, hc, hs⟩
      rw [updateInstallationStatus_calls] at hc
      have hd := Call.deleteSucceeded_isDelete hs
      rcases List.mem_append.mp hc with hc | hc
      · have := Call.not_delete_of_quiet (hf c hc)
        rw [hd] at this; cases this
      · simp only [List.mem_singleton] at hc; subst hc; cases hd
    · simp only [hg, Bool.false_eq_true, if_false]
      obtain ⟨new, h1, h2, h3, h4⟩ := cleanupOrphanedSubInstallations_spec a d
        (getSubInstallations a (State.init store inst)).2 m
      have hp : ∀ c ∈ (cleanupOrphanedSubInstallations a d
          (getSubInstallations a (State.init store inst)).2 m).2.calls,
          c.isCreateOrUpdate = false ∧ c.isGetDefinitionByRef = false := by
        intro c hc
        rw [h1] at hc
        rcases List.mem_append.mp hc with hc | hc
        · exact (Call.quiet_spec (hf c hc)).2
        · exact h2 c hc
      have hiff : ∀ e, (cleanupOrphanedSubInstallations a d
          (getSubInstallations a (State.init store inst)).2 m).1.1 = some e ↔
          ∃ obj, Call.delete obj (some e) ∈ (cleanupOrphanedSubInstallations a d
            (getSubInstallations a (State.init store inst)).2 m).2.calls ∧
            IsNotFound e = false := by
        intro e
        rw [h3 e, h1]
        constructor
        · rintro ⟨obj, ho, hn⟩; exact ⟨obj, List.mem_append_right _ ho, hn⟩
        · rintro ⟨obj, ho, hn⟩
          rcases List.mem_append.mp ho with ho | ho
          · have := Call.not_delete_of_quiet (hf _ ho)
            cases this
          · exact ⟨obj, ho, hn⟩
      cases hp1 : (cleanupOrphanedSubInstallations a d
          (getSubInstallations a (State.init store inst)).2 m).1.1 with
      | some err =>
        simp only []
        intro _
        refine ⟨hp, ?_⟩
        intro e; rw [← hiff e, hp1]
      | none =>
        simp only []
        cases hp2 : (cleanupOrphanedSubInstallations a d
            (getSubInstallations a (State.init store inst)).2 m).1.2 with
        | true =>
          simp only [if_true]
          intro _
          refine ⟨hp, ?_⟩
          intro e; rw [← hiff e, hp1]
        | false =>
          simp only [Bool.false_eq_true, if_false]
          rintro ⟨c, hc, hs⟩
          exfalso
          have hd := Call.deleteSucceeded_isDelete hs
          have hup : c ∈ (upsertLoop a d d.DefinitionReferences m
              (cleanupOrphanedSubInstallations a d
                (getSubInstallations a (State.init store inst)).2 m).2).2.calls := by
            split at hc
            · exact hc
            · rw [updateInstallationStatus_calls] at hc
              rcases List.mem_append.mp hc with hc | hc
              · exact hc
              · simp only [List.mem_singleton] at hc; subst hc; cases hd
          rcases upsertLoop_calls a d _ _ _ c hup with h | h
          · rw [h1] at h
            rcases List.mem_append.mp h with h | h
            · have := Call.not_delete_of_quiet (hf c h)
              rw [hd] at this; cases this
            · have := h4.mpr ⟨c, h, hs⟩
              rw [hp2] at this; cases this
          · rw [hd] at h; cases h

/-- Witness for C4: the only tracked child is undeclared and its delete succeeds. -/
theorem EnsureSubInstallations_after_delete_witness :
    (∃ c ∈ (EnsureSubInstallations (memActuator []) (State.init [parentB, childB] parentB)
        defA).2.calls, c.deleteSucceeded = true) ∧
    (∀ c ∈ (EnsureSubInstallations (memActuator []) (State.init [parentB, childB] parentB)
        defA).2.calls, c.isCreateOrUpdate = false ∧ c.isGetDefinitionByRef = false) :=
  ⟨by decide,
    (EnsureSubInstallations_after_delete (memActuator []) [parentB, childB] parentB defA
      (by decide)).1⟩

/-! ## C9: selection and order of the upserts -/

theorem SubInstallations.get_set_ne (m : SubInstallations) (k k' : String)
    (v : ComponentInstallation) (h : k' ≠ k) : (m.set k v).get k' = m.get k' := by
  induction m with
  | nil =>
    simp [SubInstallations.set, SubInstallations.get, List.find?, Ne.symm h]
  | cons e rest ih =>
    unfold SubInstallations.set
    by_cases he : e.1 = k
    · have hk : ¬ e.1 = k' := by rw [he]; exact Ne.symm h
      simp [he, SubInstallations.get, List.find?, Ne.symm h, hk]
    · simp only [he, if_false]
      unfold SubInstallations.get at ih ⊢
      by_cases hk : e.1 = k'
      · simp [List.find?, hk]
      · simp only [List.find?, hk, decide_False]
        exact ih

/-- With pairwise distinct declared names, the loop of lines 64-77 calls
`createOrUpdateNewInstallation` for the selected references only, in order, each with the
child the fetch returned for its name. -/
theorem upsertLoop_eq_upsertInOrder {σ : Type} (a : Actuator σ) (d : ComponentDefinition)
    (m : SubInstallations) (l : List DefinitionReference) :
    ∀ (m' : SubInstallations) (s : State σ),
      (l.map (fun subDef => subDef.Name)).Nodup →
      (∀ x ∈ l, m'.get x.Name = m.get x.Name) →
      upsertLoop a d l m' s =
        upsertInOrder a d m (l.filter (fun subDef =>
          match m.get subDef.Name with
          | none => true
          | some c => installationNeedsUpdate subDef c)) s := by
  induction l with
  | nil => intro m' s _ _; rfl
  | cons x rest ih =>
    intro m' s hnd hget
    have hx : m'.get x.Name = m.get x.Name := hget x (List.mem_cons_self _ _)
    have hnd' : (rest.map (fun subDef => subDef.Name)).Nodup := (List.nodup_cons.mp hnd).2
    have hnotin : ∀ y ∈ rest, y.Name ≠ x.Name := by
      intro y hy heq
      apply (List.nodup_cons.mp hnd).1
      show x.Name ∈ rest.map (fun subDef => subDef.Name)
      rw [← heq]
      exact List.mem_map_of_mem _ hy
    have hrest : ∀ y ∈ rest, m'.get y.Name = m.get y.Name :=
      fun y hy => hget y (List.mem_cons_of_mem _ hy)
    unfold upsertLoop
    simp only [hx, List.filter_cons]
    cases hm : m.get x.Name with
    | none =>
      simp only [skipsUpsert, Bool.false_eq_true, if_false, if_true]
      unfold upsertInOrder
      simp only [hm]
      split
      · rfl
      · exact ih m' _ hnd' hrest
    | some c =>
      simp only [skipsUpsert]
      by_cases hn : installationNeedsUpdate x c = true
      case neg =>
        have hn' : installationNeedsUpdate x c = false := by simpa using hn
        simp only [hn', Bool.not_false, if_true, Bool.false_eq_true, if_false]
        exact ih m' s hnd' hrest
      case pos =>
        simp only [hn, Bool.not_true, Bool.false_eq_true, if_false, if_true]
        unfold upsertInOrder
        simp only [hm]
        split
        · rfl
        · refine ih _ _ hnd' ?_
          intro y hy
          rw [SubInstallations.get_set_ne _ _ _ _ (hnotin y hy)]
          exact hrest y hy

/-- C9 (as stated, refuted): the definition declares `x` twice and the live child of `x` has
drifted. The gate passes and the prune returns no error and deleted nothing; both declared
entries have a live child for which `installationNeedsUpdate` is true, so the selection has
two entries and calling `createOrUpdateNewInstallation` for them in order issues two
`CreateOrUpdate`. The pass issues one: the first call updates the child in place, through the
pointer the map holds, and the second entry is then skipped. -/
theorem EnsureSubInstallations_repeated_name_counterexample :
    (getSubInstallations (memActuator []) (State.init [parentX, childXOld] parentX)).1 =
      .ok [("x", childXOld)] ∧
    blocksUpdate childXOld = false ∧
    (cleanupOrphanedSubInstallations (memActuator []) defXX
      (getSubInstallations (memActuator []) (State.init [parentX, childXOld] parentX)).2
      [("x", childXOld)]).1 = (none, false) ∧
    upsertSelection defXX [("x", childXOld)] = [declaredX, declaredX] ∧
    ((upsertInOrder (memActuator []) defXX [("x", childXOld)]
      (upsertSelection defXX [("x", childXOld)])
      (getSubInstallations (memActuator [])
        (State.init [parentX, childXOld] parentX)).2).2.calls.filter
      Call.isCreateOrUpdate).length = 2 ∧
    (EnsureSubInstallations (memActuator []) (State.init [parentX, childXOld] parentX)
      defXX).1 = none ∧
    ((EnsureSubInstallations (memActuator []) (State.init [parentX, childXOld] parentX)
      defXX).2.calls.filter Call.isCreateOrUpdate).length = 1 := by
  refine ⟨rfl, by decide, by decide, by decide, by decide, by decide, by decide⟩

/-- C9 (amended): for a definition whose declared names are pairwise distinct, when the fetch
succeeds with mapping `m`, no child of `m` blocks the gate and the
prune returns no error and deleted nothing, the pass is the sequence of
`createOrUpdateNewInstallation` calls for the declared references that have no child in `m`
under their name or for which `installationNeedsUpdate` is true, in declared order, ended by
the first call that fails, whose error (with the context line 75 adds) the pass returns; if
none fails the pass ends with the final status write. -/
theorem EnsureSubInstallations_upserts {σ : Type} (a : Actuator σ) (hr : a.RangeOK)
    (store : σ) (inst : ComponentInstallation) (d : ComponentDefinition) (m : SubInstallations)
    (hnames : (d.DefinitionReferences.map (fun subDef => subDef.Name)).Nodup)
    (hfetch : (getSubInstallations a (State.init store inst)).1 = .ok m)
    (hgate : ∀ e ∈ m, blocksUpdate e.2 = false)
    (hprune : (cleanupOrphanedSubInstallations a d
      (getSubInstallations a (State.init store inst)).2 m).1 = (none, false)) :
    EnsureSubInstallations a (State.init store inst) d =
      match (upsertInOrder a d m (upsertSelection d m)
          (cleanupOrphanedSubInstallations a d
            (getSubInstallations a (State.init store inst)).2 m).2).1 with
      | some err =>
        (some err, (upsertInOrder a d m (upsertSelection d m)
          (cleanupOrphanedSubInstallations a d
            (getSubInstallations a (State.init store inst)).2 m).2).2)
      | none =>
        updateInstallationStatus a
          (upsertInOrder a d m (upsertSelection d m)
            (cleanupOrphanedSubInstallations a d
              (getSubInstallations a (State.init store inst)).2 m).2).2
          (upsertInOrder a d m (upsertSelection d m)
            (cleanupOrphanedSubInstallations a d
              (getSubInstallations a (State.init store inst)).2 m).2).2.inst.Status.Phase
          (UpdatedCondition
            (GetOrInitCondition inst.Status.Conditions EnsureSubInstallationsCondition)
            .ConditionTrue "InstallationsInstalled"
            "All Installations are successfully installed") := by
  have hany : (a.mapRange m).any (fun e => blocksUpdate e.2) = false := by
    rw [List.any_eq_false]
    intro e he
    rw [hgate e ((hr m).mem_iff.mp he)]
    simp
  have hp1 := congrArg Prod.fst hprune
  have hp2 := congrArg Prod.snd hprune
  simp only [] at hp1 hp2
  unfold EnsureSubInstallations
  simp only [hfetch, hany, Bool.false_eq_true, if_false, hp1, hp2]
  rw [upsertLoop_eq_upsertInOrder a d m d.DefinitionReferences m _ hnames (fun _ _ => rfl)]
  rfl

/-- Witness for C9: `x` is live and up to date, `a` has no child; only `a` is selected. -/
theorem EnsureSubInstallations_upserts_witness :
    (memActuator []).RangeOK ∧
    (defXA.DefinitionReferences.map (fun subDef => subDef.Name)).Nodup ∧
    (getSubInstallations (memActuator []) (State.init [parentX, childX] parentX)).1 =
      .ok [("x", childX)] ∧
    (∀ e ∈ [("x", childX)], blocksUpdate e.2 = false) ∧
    upsertSelection defXA [("x", childX)] = [declaredA] ∧
    (EnsureSubInstallations (memActuator []) (State.init [parentX, childX] parentX) defXA).1 =
      none :=
  ⟨fun m => List.Perm.refl m, by decide, rfl, by decide, by decide,
    (congrArg Prod.fst (EnsureSubInstallations_upserts (memActuator [])
      (fun m => List.Perm.refl m) [parentX, childX] parentX defXA [("x", childX)]
      (by decide) rfl (by decide) (by decide))).trans (by decide)⟩

/-! ## A pass with nothing left to do -/

theorem cleanupLoop_no_orphans {σ : Type} (a : Actuator σ) (d : ComponentDefinition)
    (cond : Condition) (l : SubInstallations) :
    ∀ (deleted : Bool) (s : State σ),
      (∀ e ∈ l, (getDefinitionReference d e.1).isSome = true) →
      cleanupLoop a d cond l deleted s = ((none, deleted), s) := by
  induction l with
  | nil => intro deleted s _; rfl
  | cons hd rest ih =>
    obtain ⟨defName, subInst⟩ := hd
    intro deleted s h
    unfold cleanupLoop
    have h0 : (getDefinitionReference d defName).isSome = true :=
      h (defName, subInst) (List.mem_cons_self _ _)
    simp only [h0, if_true]
    exact ih deleted s (fun e he => h e (List.mem_cons_of_mem _ he))

theorem upsertLoop_settled {σ : Type} (a : Actuator σ) (d : ComponentDefinition)
    (m : SubInstallations) (l : List DefinitionReference) (s : State σ)
    (h : ∀ subDef ∈ l, skipsUpsert subDef (m.get subDef.Name) = true) :
    upsertLoop a d l m s = (none, s) := by
  induction l with
  | nil => rfl
  | cons x rest ih =>
    unfold upsertLoop
    simp only [h x (List.mem_cons_self _ _), if_true]
    exact ih (fun y hy => h y (List.mem_cons_of_mem _ hy))

theorem GetOrInitCondition_type (conditions : List Condition) (condType : String) :
    (GetOrInitCondition conditions condType).CondType = condType := by
  unfold GetOrInitCondition
  cases h : conditions.find? (fun c => c.CondType = condType) with
  | none => rfl
  | some c =>
    have := List.find?_some h
    simpa using this

theorem mem_CreateOrUpdateConditions (conditions : List Condition) (cond : Condition) :
    cond ∈ CreateOrUpdateConditions conditions cond := by
  induction conditions with
  | nil => simp [CreateOrUpdateConditions]
  | cons c rest ih =>
    unfold CreateOrUpdateConditions
    by_cases h : c.CondType = cond.CondType
    · simp [h]
    · simp only [h, if_false]
      exact List.mem_cons_of_mem _ ih

/-- A pass that starts where nothing is left to do, that is, every tracked child is fetched,
none of them has a `DeletionTimestamp` or is `Progressing`, each of them is declared and every
declared reference has a live child for which `installationNeedsUpdate` is false, issues no
`Delete`, no `CreateOrUpdate` and no registry lookup; after the calls of the fetch its only
call is the status write of the parent, with the phase unchanged and the condition
`EnsureSubInstallations` set to True with reason `InstallationsInstalled`. -/
theorem EnsureSubInstallations_settled {σ : Type} (a : Actuator σ) (hr : a.RangeOK)
    (store : σ) (inst : ComponentInstallation) (d : ComponentDefinition) (m : SubInstallations)
    (hfetch : (getSubInstallations a (State.init store inst)).1 = .ok m)
    (hgate : ∀ e ∈ m, blocksUpdate e.2 = false)
    (hdeclared : ∀ e ∈ m, (getDefinitionReference d e.1).isSome = true)
    (hsettled : ∀ subDef ∈ d.DefinitionReferences,
      ∃ c, m.get subDef.Name = some c ∧ installationNeedsUpdate subDef c = false) :
    (∀ c ∈ (EnsureSubInstallations a (State.init store inst) d).2.calls,
      c.isDelete = false ∧ c.isCreateOrUpdate = false ∧ c.isGetDefinitionByRef = false) ∧
    ∃ written,
      (EnsureSubInstallations a (State.init store inst) d).2.calls =
        (getSubInstallations a (State.init store inst)).2.calls ++
          [Call.statusUpdate written (EnsureSubInstallations a (State.init store inst) d).1] ∧
      written.Status.Phase = inst.Status.Phase ∧
      (∃ c ∈ written.Status.Conditions,
        c.CondType = EnsureSubInstallationsCondition ∧ c.Status = .ConditionTrue ∧
        c.Reason = "InstallationsInstalled") := by
  have hany : (a.mapRange m).any (fun e => blocksUpdate e.2) = false := by
    rw [List.any_eq_false]
    intro e he
    rw [hgate e ((hr m).mem_iff.mp he)]
    simp
  have hinst : (getSubInstallations a (State.init store inst)).2.inst = inst :=
    (getSubInstallations_calls a (State.init store inst)).2 m hfetch
  have hprune : cleanupOrphanedSubInstallations a d
      (getSubInstallations a (State.init store inst)).2 m =
      ((none, false), (getSubInstallations a (State.init store inst)).2) :=
    cleanupLoop_no_orphans a d _ (a.mapRange m) false _
      (fun e he => hdeclared e ((hr m).mem_iff.mp he))
  have hskip : ∀ subDef ∈ d.DefinitionReferences,
      skipsUpsert subDef (m.get subDef.Name) = true := by
    intro subDef hs
    obtain ⟨c, hc, hn⟩ := hsettled subDef hs
    simp [skipsUpsert, hc, hn]
  have heq : EnsureSubInstallations a (State.init store inst) d =
      updateInstallationStatus a (getSubInstallations a (State.init store inst)).2
        inst.Status.Phase
        (UpdatedCondition
          (GetOrInitCondition inst.Status.Conditions EnsureSubInstallationsCondition)
          .ConditionTrue "InstallationsInstalled"
          "All Installations are successfully installed") := by
    unfold EnsureSubInstallations
    simp only [hfetch, hany, Bool.false_eq_true, if_false, hprune,
      upsertLoop_settled a d m d.DefinitionReferences _ hskip, hinst]
    rfl
  rw [heq]
  refine ⟨?_, _, updateInstallationStatus_calls _ _ _ _, rfl, ?_⟩
  · intro c hc
    rw [updateInstallationStatus_calls] at hc
    apply Call.quiet_spec
    rcases List.mem_append.mp hc with hc | hc
    · rcases (getSubInstallations_calls a (State.init store inst)).1 c hc with h | h
      · simp [State.init] at h
      · exact h
    · simp only [List.mem_singleton] at hc; subst hc; rfl
  · refine ⟨UpdatedCondition
        (GetOrInitCondition inst.Status.Conditions EnsureSubInstallationsCondition)
        .ConditionTrue "InstallationsInstalled"
        "All Installations are successfully installed", ?_, ?_, rfl, rfl⟩
    · rw [updateInstallationStatus_conditions, hinst]
      exact mem_CreateOrUpdateConditions _ _
    · exact GetOrInitCondition_type _ _

/-! ## Two passes on the in-memory store -/

/-- C5 (failing input): the parent tracks `x`, whose child is gone from the store. The fetch
returns an empty mapping and no error, and the status write it issues carries the parent with
the stale reference still in `InstallationReferences`; the parent object and the stored
parent keep it too. -/
theorem getSubInstallations_stale_reference_kept :
    (getSubInstallations (memActuator []) (State.init [parentX] parentX)).1 = .ok [] ∧
    (getSubInstallations (memActuator []) (State.init [parentX] parentX)).2.calls =
      [Call.get trackedX.Reference (.error (.notFound "root-x-")),
       Call.statusUpdate parentX none] ∧
    parentX.Status.InstallationReferences = [trackedX] ∧
    (getSubInstallations (memActuator []) (State.init [parentX] parentX)).2.inst = parentX ∧
    (getSubInstallations (memActuator []) (State.init [parentX] parentX)).2.store =
      [parentX] :=
  ⟨rfl, rfl, rfl, rfl, by decide⟩

/-- On every input, a successful fetch hands back the parent object as it received it: the
list of found references it builds is never stored in `InstallationReferences`. -/
theorem getSubInstallations_keeps_references {σ : Type} (a : Actuator σ) (s : State σ)
    (m : SubInstallations) (h : (getSubInstallations a s).1 = .ok m) :
    (getSubInstallations a s).2.inst.Status.InstallationReferences =
      s.inst.Status.InstallationReferences := by
  rw [(getSubInstallations_calls a s).2 m h]

/-- On every input, a successful `createOrUpdateNewInstallation` appends the reference of the
child to the tracked list, whether or not a child was passed in. -/
theorem createOrUpdateNewInstallation_appends {σ : Type} (a : Actuator σ) (s : State σ)
    (d : ComponentDefinition) (subDefRef : DefinitionReference)
    (subInst : Option ComponentInstallation) (c : ComponentInstallation)
    (h : (createOrUpdateNewInstallation a s d subDefRef subInst).1 = .ok c) :
    (createOrUpdateNewInstallation a s d subDefRef subInst).2.inst.Status.InstallationReferences
      = s.inst.Status.InstallationReferences ++
        [NewInstallationReferenceState subDefRef.Name c] := by
  revert h
  unfold createOrUpdateNewInstallation
  simp only []
  split
  · intro h; cases h
  · split
    · intro h; cases h
    · split
      · intro h; cases h
      · intro h
        simp only [Except.ok.injEq] at h
        subst h
        rfl

/-- C6 (failing input): `createOrUpdateNewInstallation` is handed the existing child of `x`,
which the parent already tracks. The child is updated in place to the declared spec, and the
reference of `x` is appended once more, so `x` is tracked twice. -/
theorem createOrUpdateNewInstallation_existing_child_tracked_twice :
    ((createOrUpdateNewInstallation (memActuator []) (State.init [parentX, childXOld] parentX)
        defX declaredX (some childXOld)).1.toOption.map (fun c => (c.key, c.Spec))) =
      some (trackedX.Reference, childX.Spec) ∧
    parentX.Status.InstallationReferences = [trackedX] ∧
    (createOrUpdateNewInstallation (memActuator []) (State.init [parentX, childXOld] parentX)
        defX declaredX (some childXOld)).2.inst.Status.InstallationReferences =
      [trackedX, trackedX] := by
  decide

end Landscaper
